import Mathlib

/-!
Shallow embedding of the `career-cli` application core (src/main.rs,
src/models.rs, src/storage.rs): the record model, the application state
machine, the column-layout function and a model of the persistence layer,
together with theorems settling the specification claims.
-/

set_option maxHeartbeats 1000000

namespace CareerCli

/-- The `Status` enumeration from src/models.rs. -/
inductive Status where
  | Applied
  | Interviewing
  | Offer
  | Rejected
  | Ghosted
deriving DecidableEq, Repr

/-- Rust `Status::next` from src/models.rs: the five-element cycle. -/
def Status.next : Status → Status
  | .Applied => .Interviewing
  | .Interviewing => .Offer
  | .Offer => .Rejected
  | .Rejected => .Ghosted
  | .Ghosted => .Applied

/-- The `Job` record from src/models.rs. The `DateTime<Utc>` timestamp is
modelled as a `Nat` clock value. -/
structure Job where
  id : Nat
  company : String
  role : String
  post_link : String
  status : Status
  notes : String
  date_applied : Nat
deriving DecidableEq, Repr

/-- Rust `Job::new` from src/models.rs; `now` stands for the `Utc::now()` call. -/
def Job.new (id : Nat) (company : String) (role : String) (post_link : String)
    (now : Nat) : Job :=
  { id := id, company := company, role := role, post_link := post_link,
    status := .Applied, notes := "", date_applied := now }

/-- Rust `Job::cycle_status` from src/models.rs. -/
def Job.cycle_status (j : Job) : Job :=
  { j with status := j.status.next }

/-- The `InputMode` enumeration from src/main.rs. -/
inductive InputMode where
  | Normal
  | Editing
deriving DecidableEq, Repr

/-- The `InputField` enumeration from src/main.rs. -/
inductive InputField where
  | Company
  | Role
  | Link
deriving DecidableEq, Repr

/-- The `EditTarget` enumeration from src/main.rs. -/
inductive EditTarget where
  | New
  | Existing (i : Nat)
deriving DecidableEq, Repr

/-- The `App` struct from src/main.rs. `ratatui`'s `ListState` is observed
by the program only through `selected()`/`select(..)`, so it is modelled by
its `Option Nat` selection. -/
structure App where
  jobs : List Job
  selected : Option Nat
  should_quit : Bool
  input_mode : InputMode
  input_field : InputField
  input_buffer : String
  temp_company : String
  temp_role : String
  edit_target : EditTarget
deriving DecidableEq, Repr

/-- Word size of the target: Rust `usize` arithmetic in release builds wraps
modulo `2^64`. -/
def USIZE : Nat := 2 ^ 64

/-- Rust `App::new` from src/main.rs: select the first record iff any exist. -/
def App.new (jobs : List Job) : App :=
  { jobs := jobs,
    selected := if jobs.isEmpty then none else some 0,
    should_quit := false,
    input_mode := .Normal,
    input_field := .Company,
    input_buffer := "",
    temp_company := "",
    temp_role := "",
    edit_target := .New }

/-- Rust `App::next` from src/main.rs. Here `self.jobs.len() - 1` is `usize`
subtraction, which wraps modulo `2^64` when the list is empty (release
semantics). -/
def App.next (s : App) : App :=
  let i := match s.selected with
    | some i =>
      if (s.jobs.length + USIZE - 1) % USIZE ≤ i then 0 else (i + 1) % USIZE
    | none => 0
  { s with selected := some i }

/-- Rust `App::previous` from src/main.rs, with the same wrapping `usize`
subtraction on the empty list. -/
def App.previous (s : App) : App :=
  let i := match s.selected with
    | some i =>
      if i = 0 then (s.jobs.length + USIZE - 1) % USIZE else i - 1
    | none => 0
  { s with selected := some i }

/-- Rust `App::reset_input` from src/main.rs. -/
def App.reset_input (s : App) : App :=
  { s with input_buffer := "", temp_company := "", temp_role := "",
           edit_target := .New, input_mode := .Normal,
           input_field := .Company }

/-- Rust `App::submit_input` from src/main.rs; `now` stands for the `Utc::now()`
call inside `Job::new`. The `Existing` branch's `get_mut` update is modelled
by `List.set` guarded by an index lookup (out-of-range indices are a
no-op, matching `if let Some(job) = self.jobs.get_mut(index)`). -/
def App.submit_input (s : App) (now : Nat) : App :=
  match s.input_field with
  | .Company =>
    { s with temp_company := s.input_buffer, input_buffer := "",
             input_field := .Role }
  | .Role =>
    { s with temp_role := s.input_buffer, input_buffer := "",
             input_field := .Link }
  | .Link =>
    let post_link := s.input_buffer.trim
    let s1 := match s.edit_target with
      | .New =>
        let new_id := s.jobs.length + 1
        let new_job := Job.new new_id s.temp_company s.temp_role post_link now
        { s with jobs := s.jobs ++ [new_job] }
      | .Existing index =>
        match s.jobs[index]? with
        | some job =>
          { s with jobs := s.jobs.set index { job with post_link := post_link } }
        | none => s
    s1.reset_input

/-- Rust `App::start_add` from src/main.rs. -/
def App.start_add (s : App) : App :=
  { s with input_mode := .Editing, input_field := .Company,
           edit_target := .New, input_buffer := "" }

/-- Rust `App::start_edit_link` from src/main.rs. -/
def App.start_edit_link (s : App) : App :=
  match s.selected with
  | some i =>
    match s.jobs[i]? with
    | some job =>
      { s with input_mode := .Editing, input_field := .Link,
               edit_target := .Existing i, input_buffer := job.post_link }
    | none => s
  | none => s

/-- Rust `App::cycle_current_status` from src/main.rs; the `get_mut` update is
modelled by lookup-then-`List.set`. -/
def App.cycle_current_status (s : App) : App :=
  match s.selected with
  | some i =>
    match s.jobs[i]? with
    | some job => { s with jobs := s.jobs.set i job.cycle_status }
    | none => s
  | none => s

/-- Rust `App::open_current_link` from src/main.rs takes `&self` and only issues
the fire-and-forget `open::that` call; it is modelled by the link it opens,
`none` meaning no call is issued. The state is unchanged by construction. -/
def App.open_current_link (s : App) : Option String :=
  match s.selected with
  | some i =>
    match s.jobs[i]? with
    | some job =>
      if job.post_link.trim.isEmpty then none else some job.post_link
    | none => none
  | none => none

/-- Rust `App::delete_current_job` from src/main.rs. -/
def App.delete_current_job (s : App) : App :=
  match s.selected with
  | some i =>
    if i < s.jobs.length then
      let jobs1 := s.jobs.eraseIdx i
      if ¬jobs1.isEmpty ∧ jobs1.length ≤ i then
        { s with jobs := jobs1, selected := some (jobs1.length - 1) }
      else if jobs1.isEmpty then
        { s with jobs := jobs1, selected := none }
      else
        { s with jobs := jobs1 }
    else s
  | none => s

/-- Rust `column_widths` from src/main.rs: maps the total available width to the
four column widths (company, role, link, status). `u16` is widened to
`usize` before any arithmetic; `saturating_sub` on `usize` coincides with
truncated `Nat` subtraction. -/
def column_widths (total_width : Nat) : Nat × Nat × Nat × Nat :=
  let highlight := 3
  let separators := 9
  let leading := 1
  let content_width := total_width - (highlight + separators + leading)
  if content_width = 0 then
    (0, 0, 0, 0)
  else
    let min_company := 10
    let min_role := 10
    let min_link := 14
    let min_status := 10
    let min_total := min_company + min_role + min_link + min_status
    if content_width < min_total then
      let weight_sum := 3 + 3 + 4 + 2
      let company0 := content_width * 3 / weight_sum
      let role0 := content_width * 3 / weight_sum
      let link0 := content_width * 4 / weight_sum
      let status0 := content_width - (company0 + role0 + link0)
      let company := max company0 3
      let role := max role0 3
      let link1 := max link0 3
      let status := max status0 3
      let total := company + role + link1 + status
      if content_width < total then
        let overflow := total - content_width
        let reduce := min overflow (link1 - 3)
        (company, role, link1 - reduce, status)
      else
        (company, role, link1, status)
    else
      let extra := content_width - min_total
      let company := min_company + extra * 3 / 10
      let role := min_role + extra * 3 / 10
      let link0 := min_link + extra * 3 / 10
      let status0 := content_width - (company + role + link0)
      if status0 < min_status then
        let deficit := min_status - status0
        let take := min deficit (link0 - min_link)
        let link1 := link0 - take
        (company, role, link1, content_width - (company + role + link1))
      else
        (company, role, link0, status0)

/-- Rust `truncate` from src/main.rs (character-count model of string length). -/
def truncate (value : String) (max_len : Nat) : String :=
  if value.length ≤ max_len then value
  else if max_len ≤ 3 then String.mk (value.toList.take max_len)
  else String.mk (value.toList.take (max_len - 3)) ++ "..."

/-- A JSON value, for modelling the serialized form of the backing store. -/
inductive Json where
  | str (s : String)
  | num (n : Nat)
  | arr (xs : List Json)
  | obj (fields : List (String × Json))

/-- Field lookup on a JSON object (first occurrence wins). -/
def Json.getField (j : Json) (name : String) : Option Json :=
  match j with
  | .obj fields => fields.lookup name
  | _ => none

/-- The serde tag of each `Status` unit variant. -/
def Status.fromTag (s : String) : Option Status :=
  if s = "Applied" then some .Applied
  else if s = "Interviewing" then some .Interviewing
  else if s = "Offer" then some .Offer
  else if s = "Rejected" then some .Rejected
  else if s = "Ghosted" then some .Ghosted
  else none

/-- Model of the serde-derived deserializer for `Job` (src/models.rs): every
field is looked up by name and is required, except `post_link`, which
carries `#[serde(default)]` and falls back to the empty string when the
field is absent. The timestamp is abstracted as a number. -/
def Job.fromJson (j : Json) : Except String Job :=
  match j.getField "id" with
  | some (.num id) =>
    match j.getField "company" with
    | some (.str company) =>
      match j.getField "role" with
      | some (.str role) =>
        let link : Except String String :=
          match j.getField "post_link" with
          | some (.str s) => .ok s
          | none => .ok ""
          | some _ => .error "invalid type for post_link"
        match link with
        | .ok post_link =>
          match j.getField "status" with
          | some (.str tag) =>
            match Status.fromTag tag with
            | some status =>
              match j.getField "notes" with
              | some (.str notes) =>
                match j.getField "date_applied" with
                | some (.num date) =>
                  .ok { id := id, company := company, role := role,
                        post_link := post_link, status := status,
                        notes := notes, date_applied := date }
                | _ => .error "missing field date_applied"
              | _ => .error "missing field notes"
            | none => .error "unknown variant"
          | _ => .error "missing field status"
        | .error e => .error e
      | _ => .error "missing field role"
    | _ => .error "missing field company"
  | _ => .error "missing field id"

/-- Deserializing `Vec<Job>`: a JSON array of records. -/
def jobsFromJson (j : Json) : Except String (List Job) :=
  match j with
  | .arr xs => xs.mapM Job.fromJson
  | _ => .error "expected an array"

/-- The observable contents of the backing store file: absent, present but
not parseable as JSON, or a parsed JSON document. -/
inductive StoreContent where
  | absent
  | invalid
  | json (j : Json)

/-- Error taxonomy of `load_jobs`: a read failure or a parse failure
(`.context("Failed to parse JSON")`). -/
inductive LoadError where
  | readError
  | parseError
deriving DecidableEq, Repr

/-- Rust `load_jobs` from src/storage.rs: an absent file yields the empty list;
a file that is not valid JSON matching the `Vec<Job>` schema yields a parse
error. -/
def load_jobs (store : StoreContent) : Except LoadError (List Job) :=
  match store with
  | .absent => .ok []
  | .invalid => .error .parseError
  | .json j =>
    match jobsFromJson j with
    | .ok jobs => .ok jobs
    | .error _ => .error .parseError

/-- The spec's state invariant: the selection cursor, when present, indexes
into the job sequence, and is `none` exactly when the sequence is empty. -/
def App.inv (s : App) : Prop :=
  (∀ i, s.selected = some i → i < s.jobs.length) ∧
  (s.selected = none ↔ s.jobs = [])

instance (s : App) : Decidable s.inv := by
  unfold App.inv
  have : Decidable (∀ i, s.selected = some i → i < s.jobs.length) := by
    cases h : s.selected with
    | none => exact .isTrue (by simp [h])
    | some j =>
      by_cases hj : j < s.jobs.length
      · exact .isTrue (by simp [h, hj])
      · exact .isFalse (by simp [h, hj])
  exact instDecidableAnd

/-- A concrete record, used to instantiate universally quantified theorems. -/
def sampleJob : Job := Job.new 1 "Acme" "Engineer" "http://acme.example/job" 0

/-- A concrete one-record application state. -/
def sampleApp : App := App.new [sampleJob]

/-- A concrete state in the final step of the Add flow over an empty list:
Editing mode, Link field, target `New`, with staged company and role. -/
def addLinkState : App :=
  { App.new [] with input_mode := .Editing, input_field := .Link,
                    edit_target := .New, input_buffer := " http://x ",
                    temp_company := "Acme", temp_role := "Engineer" }

/-- Unfolding equation for `App.next`. -/
theorem next_eq (s : App) :
    s.next = { s with selected := some (match s.selected with
      | some i =>
        if (s.jobs.length + USIZE - 1) % USIZE ≤ i then 0 else (i + 1) % USIZE
      | none => 0) } := rfl

/-- Unfolding equation for `App.previous`. -/
theorem previous_eq (s : App) :
    s.previous = { s with selected := some (match s.selected with
      | some i => if i = 0 then (s.jobs.length + USIZE - 1) % USIZE else i - 1
      | none => 0) } := rfl

theorem submit_company {s : App} (now : Nat) (hf : s.input_field = .Company) :
    s.submit_input now = { s with temp_company := s.input_buffer,
                                  input_buffer := "", input_field := .Role } := by
  simp only [App.submit_input, hf]

theorem submit_role {s : App} (now : Nat) (hf : s.input_field = .Role) :
    s.submit_input now = { s with temp_role := s.input_buffer,
                                  input_buffer := "", input_field := .Link } := by
  simp only [App.submit_input, hf]

theorem submit_link_new {s : App} (now : Nat) (hf : s.input_field = .Link)
    (ht : s.edit_target = .New) :
    s.submit_input now =
      ({ s with jobs := s.jobs ++
          [Job.new (s.jobs.length + 1) s.temp_company s.temp_role
            s.input_buffer.trim now] } : App).reset_input := by
  simp only [App.submit_input, hf, ht]

theorem submit_link_existing {s : App} (now : Nat) {idx : Nat} {job : Job}
    (hf : s.input_field = .Link) (ht : s.edit_target = .Existing idx)
    (hg : s.jobs[idx]? = some job) :
    s.submit_input now =
      ({ s with
          jobs := s.jobs.set idx ({ job with post_link := s.input_buffer.trim }) } :
            App).reset_input := by
  simp only [App.submit_input, hf, ht, hg]

theorem reset_jobs (s : App) : s.reset_input.jobs = s.jobs := rfl

theorem reset_selected (s : App) : s.reset_input.selected = s.selected := rfl

theorem start_edit_link_some {s : App} {i : Nat} {job : Job}
    (hs : s.selected = some i) (hg : s.jobs[i]? = some job) :
    s.start_edit_link =
      { s with input_mode := .Editing, input_field := .Link,
               edit_target := .Existing i, input_buffer := job.post_link } := by
  simp only [App.start_edit_link, hs, hg]

theorem cycle_some {s : App} {i : Nat} {job : Job}
    (hs : s.selected = some i) (hg : s.jobs[i]? = some job) :
    s.cycle_current_status = { s with jobs := s.jobs.set i job.cycle_status } := by
  simp only [App.cycle_current_status, hs, hg]

theorem delete_eq {s : App} {i : Nat} (hs : s.selected = some i)
    (hi : i < s.jobs.length) :
    s.delete_current_job =
      (if ¬(s.jobs.eraseIdx i).isEmpty ∧ (s.jobs.eraseIdx i).length ≤ i then
        { s with jobs := s.jobs.eraseIdx i,
                 selected := some ((s.jobs.eraseIdx i).length - 1) }
      else if (s.jobs.eraseIdx i).isEmpty then
        { s with jobs := s.jobs.eraseIdx i, selected := none }
      else
        { s with jobs := s.jobs.eraseIdx i }) := by
  simp only [App.delete_current_job, hs, hi, if_pos, if_true]

/-- The invariant transfers along equal job-list length and equal selection. -/
theorem inv_transfer {s t : App} (h : s.inv)
    (hlen : t.jobs.length = s.jobs.length) (hsel : t.selected = s.selected) :
    t.inv := by
  obtain ⟨h1, h2⟩ := h
  refine ⟨fun i hi => ?_, ?_⟩
  · rw [hsel] at hi
    exact hlen ▸ h1 i hi
  · rw [hsel, h2, ← List.length_eq_zero, ← List.length_eq_zero, hlen]

/-- Under the invariant, a non-empty sequence has an in-range cursor. -/
theorem inv_selected {s : App} (h : s.inv) (hne : s.jobs ≠ []) :
    ∃ i, s.selected = some i ∧ i < s.jobs.length := by
  obtain ⟨h1, h2⟩ := h
  cases hs : s.selected with
  | none => exact absurd (h2.mp hs) hne
  | some i => exact ⟨i, rfl, h1 i hs⟩

/-- The wrapping `usize` decrement agrees with `Nat` subtraction on
positive, representable lengths. -/
theorem usize_mod {n : Nat} (h1 : 1 ≤ n) (h2 : n < USIZE) :
    (n + USIZE - 1) % USIZE = n - 1 := by
  have he : n + USIZE - 1 = (n - 1) + USIZE := by omega
  rw [he, Nat.add_mod_right, Nat.mod_eq_of_lt (by omega)]

/-- Claim C1, counterexample: the invariant (cursor in range when present,
and `none` iff the sequence is empty) holds in the reachable states
`App.new []` and `addLinkState`, yet `select_next` and `submit_field`
respectively break it there: `next` sets the cursor to `some 0` on the
empty sequence, and `submit_input` appends a first record while the cursor
stays `none`. So the predicate is not preserved by every exposed
operation. -/
theorem C1_counterexample :
    ((App.new []).inv ∧ ¬ (App.new []).next.inv) ∧
    (addLinkState.inv ∧ ¬ (addLinkState.submit_input 0).inv) := by decide

/-- Claim C1, amended: the invariant — the selection cursor, when present,
is an index strictly below the length of the job sequence, and the cursor
is `none` iff the sequence is empty — holds in every initial state, and is
preserved by every exposed operation (`select_next`, `select_previous`,
`submit_field`, `delete_selected`, `begin_add`, `begin_edit_link`,
`cancel_edit`, `cycle_status`) whenever the job sequence is non-empty (with
its length below `2^64`); on the empty sequence `select_next`,
`select_previous` and `submit_field` can break it. -/
theorem C1_invariant_amended :
    (∀ jobs0 : List Job, (App.new jobs0).inv) ∧
    (∀ (s : App) (now : Nat), s.inv → s.jobs ≠ [] → s.jobs.length < USIZE →
      s.next.inv ∧ s.previous.inv ∧ (s.submit_input now).inv ∧
      s.delete_current_job.inv ∧ s.start_add.inv ∧ s.start_edit_link.inv ∧
      s.reset_input.inv ∧ s.cycle_current_status.inv) := by
  constructor
  · intro jobs0
    cases jobs0 with
    | nil => exact ⟨by simp [App.new], by simp [App.new]⟩
    | cons a l => exact ⟨by simp [App.new], by simp [App.new]⟩
  · intro s now h hne hU
    obtain ⟨i, hs, hi⟩ := inv_selected h hne
    have hlen1 : 1 ≤ s.jobs.length := by
      cases hl : s.jobs with
      | nil => exact absurd hl hne
      | cons a l => simp [hl]
    have hmod := usize_mod hlen1 hU
    refine ⟨?_, ?_, ?_, ?_, ?_, ?_, ?_, ?_⟩
    · -- next
      rw [next_eq]
      refine ⟨fun k hk => ?_, by simp [hne]⟩
      simp only [hs, hmod, Option.some.injEq] at hk
      subst hk
      dsimp only
      split_ifs with hc
      · omega
      · rw [Nat.mod_eq_of_lt (by omega)]
        omega
    · -- previous
      rw [previous_eq]
      refine ⟨fun k hk => ?_, by simp [hne]⟩
      simp only [hs, hmod, Option.some.injEq] at hk
      subst hk
      dsimp only
      split_ifs <;> omega
    · -- submit_input
      cases hf : s.input_field with
      | Company => rw [submit_company now hf]; exact inv_transfer h rfl rfl
      | Role => rw [submit_role now hf]; exact inv_transfer h rfl rfl
      | Link =>
        cases ht : s.edit_target with
        | New =>
          rw [submit_link_new now hf ht]
          refine ⟨fun k hk => ?_, ?_⟩
          · rw [reset_selected] at hk
            rw [reset_jobs]
            simp only [hs, Option.some.injEq] at hk
            simp only [List.length_append, List.length_cons, List.length_nil]
            omega
          · rw [reset_selected, reset_jobs]
            simp [hs]
        | Existing idx =>
          cases hg : s.jobs[idx]? with
          | none =>
            have : s.submit_input now = s.reset_input := by
              simp only [App.submit_input, hf, ht, hg]
            rw [this]
            exact inv_transfer h (reset_jobs s ▸ rfl) (reset_selected s ▸ rfl)
          | some job =>
            rw [submit_link_existing now hf ht hg]
            exact inv_transfer h (by rw [reset_jobs]; simp) (by rw [reset_selected])
    · -- delete_current_job
      rw [delete_eq hs hi]
      have hlen : (s.jobs.eraseIdx i).length = s.jobs.length - 1 := by
        rw [List.length_eraseIdx, if_pos hi]
      split_ifs with hc1 hc2
      · obtain ⟨he, hle⟩ := hc1
        have hne2 : s.jobs.eraseIdx i ≠ [] := by
          intro hh
          rw [hh] at he
          exact he rfl
        have h1 : 1 ≤ (s.jobs.eraseIdx i).length := by
          rcases hl : s.jobs.eraseIdx i with _ | ⟨a, l⟩
          · exact absurd hl hne2
          · simp [hl]
        refine ⟨fun k hk => ?_, by simp [hne2]⟩
        dsimp only at hk ⊢
        simp only [Option.some.injEq] at hk
        omega
      · have he : s.jobs.eraseIdx i = [] := by simpa using hc2
        exact ⟨fun k hk => by simp at hk, by simp [he]⟩
      · have he : ¬(s.jobs.eraseIdx i).isEmpty = true := hc2
        have hne2 : s.jobs.eraseIdx i ≠ [] := fun hh => he (by simp [hh])
        push_neg at hc1
        have hlt : i < (s.jobs.eraseIdx i).length := hc1 (by simpa using hne2)
        refine ⟨fun k hk => ?_, by simp [hs, hne2]⟩
        dsimp only at hk ⊢
        rw [hs] at hk
        simp only [Option.some.injEq] at hk
        omega
    · -- start_add
      exact inv_transfer h rfl rfl
    · -- start_edit_link
      cases hg : s.jobs[i]? with
      | none =>
        have : s.start_edit_link = s := by
          simp only [App.start_edit_link, hs, hg]
        rw [this]; exact h
      | some job =>
        rw [start_edit_link_some hs hg]
        exact inv_transfer h rfl rfl
    · -- reset_input
      exact inv_transfer h (reset_jobs s ▸ rfl) (reset_selected s ▸ rfl)
    · -- cycle_current_status
      cases hg : s.jobs[i]? with
      | none =>
        have : s.cycle_current_status = s := by
          simp only [App.cycle_current_status, hs, hg]
        rw [this]; exact h
      | some job =>
        rw [cycle_some hs hg]
        exact inv_transfer h (by simp) rfl

/-- Witness for C1 at the concrete one-record state. -/
theorem C1_invariant_amended_witness :
    sampleApp.next.inv ∧ sampleApp.previous.inv ∧
    (sampleApp.submit_input 0).inv ∧ sampleApp.delete_current_job.inv ∧
    sampleApp.start_add.inv ∧ sampleApp.start_edit_link.inv ∧
    sampleApp.reset_input.inv ∧ sampleApp.cycle_current_status.inv :=
  C1_invariant_amended.2 sampleApp 0 (by decide) (by decide) (by decide)

/-- Claim C2, counterexample: `select_next` on the empty job sequence is not
a no-op — it changes the state (setting the cursor to `some 0`). -/
theorem C2_counterexample : (App.new []).next ≠ App.new [] := by
  intro hh
  have : (App.new []).next.selected = (App.new []).selected := by rw [hh]
  simp [App.next, App.new] at this

/-- Claim C2, amended: when the selection cursor is a valid index,
`select_next` advances it by 1, wrapping to index 0 at the last element,
and changes nothing else; on the empty sequence with no cursor it is not a
no-op, but instead sets the cursor to index 0, leaving the rest of the
state unchanged. -/
theorem C2_select_next_amended :
    (∀ (s : App) (i : Nat), s.selected = some i → i < s.jobs.length →
      s.jobs.length < USIZE →
      s.next =
        { s with selected := some (if i + 1 = s.jobs.length then 0 else i + 1) }) ∧
    (∀ s : App, s.jobs = [] → s.selected = none →
      s.next = { s with selected := some 0 }) := by
  constructor
  · intro s i hs hi hU
    rw [next_eq]
    have hmod := usize_mod (by omega) hU
    simp only [hs, hmod]
    have hsel : (if s.jobs.length - 1 ≤ i then 0 else (i + 1) % USIZE) =
        (if i + 1 = s.jobs.length then 0 else i + 1) := by
      split_ifs with h1 h2 h3
      · rfl
      · omega
      · omega
      · rw [Nat.mod_eq_of_lt (by omega)]
    rw [hsel]
  · intro s hj hsel
    rw [next_eq, hsel]

/-- Witness for C2 at the concrete one-record state (the cursor sits at the
last element, so it wraps to 0). -/
theorem C2_select_next_amended_witness :
    sampleApp.next = { sampleApp with selected := some 0 } := by
  have h := C2_select_next_amended.1 sampleApp 0 rfl (by decide) (by decide)
  simpa using h

/-- Claim C3: in Editing mode on the Link field with target `New`,
`submit_field` appends exactly one record built from the staged company and
role, the trimmed buffer as link, id = previous length + 1, status
`Applied` and empty notes; it leaves every pre-existing record in place,
grows the sequence by exactly one, and resets the input state to Normal
mode, Company field, empty buffer, cleared staged values and target
`New`. -/
theorem C3_submit_new_appends (s : App) (now : Nat)
    (_hmode : s.input_mode = .Editing) (h2 : s.input_field = .Link)
    (h3 : s.edit_target = .New) :
    (s.submit_input now).jobs =
      s.jobs ++ [{ id := s.jobs.length + 1, company := s.temp_company,
                   role := s.temp_role, post_link := s.input_buffer.trim,
                   status := .Applied, notes := "", date_applied := now }] ∧
    (s.submit_input now).jobs.length = s.jobs.length + 1 ∧
    (∀ k, k < s.jobs.length → (s.submit_input now).jobs[k]? = s.jobs[k]?) ∧
    (s.submit_input now).input_mode = .Normal ∧
    (s.submit_input now).input_field = .Company ∧
    (s.submit_input now).input_buffer = "" ∧
    (s.submit_input now).temp_company = "" ∧
    (s.submit_input now).temp_role = "" ∧
    (s.submit_input now).edit_target = .New := by
  rw [submit_link_new now h2 h3]
  refine ⟨rfl, by simp [App.reset_input], fun k hk => ?_, rfl, rfl, rfl, rfl,
    rfl, rfl⟩
  rw [reset_jobs]
  dsimp only
  rw [List.getElem?_append, if_pos hk]

/-- Witness for C3 at a concrete Add-flow state. -/
theorem C3_submit_new_appends_witness :
    (addLinkState.submit_input 5).jobs.length = addLinkState.jobs.length + 1 ∧
    (addLinkState.submit_input 5).input_mode = .Normal := by
  have h := C3_submit_new_appends addLinkState 5 rfl rfl rfl
  exact ⟨h.2.1, h.2.2.2.1⟩

/-- Claim C4: from any state with a selected record at index `i`, running
`begin_edit_link` and then `submit_field` with a new buffer value changes
only the `post_link` of the record at `i` (its id, company, role, status,
notes and date are untouched), leaves every other record unchanged, and
keeps the sequence length. -/
theorem C4_edit_link_frame (s : App) (i : Nat) (v : String) (now : Nat)
    (hs : s.selected = some i) (hi : i < s.jobs.length) :
    (({ s.start_edit_link with input_buffer := v }).submit_input now).jobs.length =
      s.jobs.length ∧
    (∀ j, s.jobs[i]? = some j →
      (({ s.start_edit_link with input_buffer := v }).submit_input now).jobs[i]? =
        some { j with post_link := v.trim }) ∧
    (∀ k, k ≠ i →
      (({ s.start_edit_link with input_buffer := v }).submit_input now).jobs[k]? =
        s.jobs[k]?) := by
  have hg : s.jobs[i]? = some s.jobs[i] := List.getElem?_eq_getElem hi
  rw [start_edit_link_some hs hg]
  set t : App := { s with input_mode := .Editing, input_field := .Link,
                          edit_target := .Existing i,
                          input_buffer := s.jobs[i].post_link } with ht
  set u : App := { t with input_buffer := v } with hu
  have hfu : u.input_field = .Link := rfl
  have htu : u.edit_target = .Existing i := rfl
  have hgu : u.jobs[i]? = some s.jobs[i] := hg
  rw [submit_link_existing now hfu htu hgu]
  rw [reset_jobs]
  refine ⟨by simp, fun j hj => ?_, fun k hk => ?_⟩
  · dsimp only
    rw [List.getElem?_set, if_pos rfl, if_pos (by simpa using hi)]
    rw [hg] at hj
    simp only [Option.some.injEq] at hj
    rw [hj]
  · dsimp only
    rw [List.getElem?_set, if_neg (fun hh => hk hh.symm)]

/-- Witness for C4 at the concrete one-record state. -/
theorem C4_edit_link_frame_witness :
    (({ sampleApp.start_edit_link with input_buffer := "new" }).submit_input
        7).jobs[0]? =
      some { sampleJob with post_link := "new".trim } := by
  have h := C4_edit_link_frame sampleApp 0 "new" 7 rfl (by decide)
  have h2 := h.2.1 sampleJob rfl
  simpa using h2

/-- Claim C5: with a selected record at index `i`, `delete_selected` removes
exactly that record; afterwards the cursor is `none` when the sequence
became empty, and otherwise equals `min i (newLength - 1)` — in particular
deleting the last element moves the cursor to the new last element. -/
theorem C5_delete_selected (s : App) (i : Nat)
    (hs : s.selected = some i) (hi : i < s.jobs.length) :
    s.delete_current_job.jobs = s.jobs.eraseIdx i ∧
    (s.jobs.length = 1 → s.delete_current_job.selected = none) ∧
    (2 ≤ s.jobs.length →
      s.delete_current_job.selected = some (min i (s.jobs.length - 2))) := by
  rw [delete_eq hs hi]
  have hlen : (s.jobs.eraseIdx i).length = s.jobs.length - 1 := by
    rw [List.length_eraseIdx, if_pos hi]
  have hemp : (s.jobs.eraseIdx i).isEmpty = true ↔ s.jobs.length = 1 := by
    rw [List.isEmpty_iff, ← List.length_eq_zero, hlen]
    omega
  split_ifs with hc1 hc2
  · obtain ⟨he, hle⟩ := hc1
    have hne1 : ¬s.jobs.length = 1 := fun hh => he (hemp.mpr hh)
    refine ⟨rfl, fun hh => absurd hh hne1, fun hh => ?_⟩
    dsimp only
    rw [hlen]
    congr 1
    omega
  · refine ⟨rfl, fun _ => rfl, fun hh => ?_⟩
    rw [hemp] at hc2
    omega
  · push_neg at hc1
    have hne1 : ¬s.jobs.length = 1 := fun hh => hc2 (hemp.mpr hh)
    have hlt : i < (s.jobs.eraseIdx i).length := hc1 (by simpa [hemp] using hne1)
    refine ⟨rfl, fun hh => absurd hh hne1, fun hh => ?_⟩
    dsimp only
    rw [hs]
    congr 1
    omega

/-- Witness for C5: deleting the only record empties the list and clears
the cursor. -/
theorem C5_delete_selected_witness :
    sampleApp.delete_current_job.jobs = [] ∧
    sampleApp.delete_current_job.selected = none := by
  have h := C5_delete_selected sampleApp 0 rfl (by decide)
  exact ⟨h.1, h.2.1 rfl⟩

/-- Claim C6: the layout function is pure (a function), returns four zero
widths when the content width (total minus the fixed overhead 13) is zero,
and whenever the content width is at least the combined minimum 44, each
column meets its minimum (company 10, role 10, link 14, status 10) and the
four widths plus the overhead sum exactly to the total width. -/
theorem C6_column_widths (w : Nat) :
    (w - 13 = 0 → column_widths w = (0, 0, 0, 0)) ∧
    (44 ≤ w - 13 →
      10 ≤ (column_widths w).1 ∧ 10 ≤ (column_widths w).2.1 ∧
      14 ≤ (column_widths w).2.2.1 ∧ 10 ≤ (column_widths w).2.2.2 ∧
      (column_widths w).1 + (column_widths w).2.1 + (column_widths w).2.2.1 +
        (column_widths w).2.2.2 + 13 = w) := by
  constructor
  · intro h
    simp only [column_widths]
    rw [if_pos h]
  · intro h
    simp only [column_widths]
    rw [if_neg (by omega), if_neg (by omega)]
    split_ifs with h1 <;> dsimp only <;> omega

/-- Witness for C6 at total widths 13 (zero content) and 57 (content at the
minimum threshold 44). -/
theorem C6_column_widths_witness :
    column_widths 13 = (0, 0, 0, 0) ∧
    10 ≤ (column_widths 57).1 ∧ 10 ≤ (column_widths 57).2.1 ∧
    14 ≤ (column_widths 57).2.2.1 ∧ 10 ≤ (column_widths 57).2.2.2 ∧
    (column_widths 57).1 + (column_widths 57).2.1 + (column_widths 57).2.2.1 +
      (column_widths 57).2.2.2 + 13 = 57 :=
  ⟨(C6_column_widths 13).1 rfl, (C6_column_widths 57).2 (by decide)⟩

/-- Claim C7: `Status.next` is total on the five statuses with no fixed
point, five applications are the identity, and `cycle_status` applied five
times to any record restores its status. -/
theorem C7_status_cycle (st : Status) (j : Job) :
    st.next ≠ st ∧ st.next.next.next.next.next = st ∧
    (j.cycle_status.cycle_status.cycle_status.cycle_status.cycle_status).status =
      j.status := by
  refine ⟨by cases st <;> decide, by cases st <;> rfl, ?_⟩
  obtain ⟨id, c, r, p, stj, n, d⟩ := j
  cases stj <;> rfl

/-- Claim C8: `load_jobs` returns the empty sequence (not an error) when
the backing file is absent; when the file is present but not valid JSON
matching the record schema it returns a parse error; and every stored
record lacking the `post_link` field — whatever its id, company, role,
status, notes and date — deserializes successfully with `post_link = ""`. -/
theorem C8_load_jobs :
    load_jobs .absent = .ok [] ∧
    load_jobs .invalid = .error .parseError ∧
    (∀ j : Json, (∃ e, jobsFromJson j = .error e) →
      load_jobs (.json j) = .error .parseError) ∧
    (∀ (j : Json) (id date : Nat) (company role notes tag : String)
      (st : Status),
      j.getField "post_link" = none →
      j.getField "id" = some (.num id) →
      j.getField "company" = some (.str company) →
      j.getField "role" = some (.str role) →
      j.getField "status" = some (.str tag) →
      Status.fromTag tag = some st →
      j.getField "notes" = some (.str notes) →
      j.getField "date_applied" = some (.num date) →
      Job.fromJson j = .ok { id := id, company := company, role := role,
                             post_link := "", status := st, notes := notes,
                             date_applied := date }) := by
  refine ⟨rfl, rfl, fun j hj => ?_,
    fun j id date company role notes tag st hp h1 h2 h3 h4 h5 h6 h7 => ?_⟩
  · obtain ⟨e, he⟩ := hj
    simp only [load_jobs, he]
  · simp only [Job.fromJson, hp, h1, h2, h3, h4, h5, h6, h7]

/-- Witness for C8 at a concrete non-array JSON document and at a concrete
stored record lacking its `post_link` field. -/
theorem C8_load_jobs_witness :
    load_jobs (.json (.num 0)) = .error .parseError ∧
    Job.fromJson (.obj [("id", .num 1), ("company", .str "Acme"),
        ("role", .str "Engineer"), ("status", .str "Applied"),
        ("notes", .str ""), ("date_applied", .num 3)]) =
      .ok { id := 1, company := "Acme", role := "Engineer", post_link := "",
            status := .Applied, notes := "", date_applied := 3 } :=
  ⟨C8_load_jobs.2.2.1 (.num 0) ⟨"expected an array", rfl⟩,
   C8_load_jobs.2.2.2 (.obj [("id", .num 1), ("company", .str "Acme"),
      ("role", .str "Engineer"), ("status", .str "Applied"),
      ("notes", .str ""), ("date_applied", .num 3)])
    1 3 "Acme" "Engineer" "" "Applied" .Applied rfl rfl rfl rfl rfl rfl rfl rfl⟩

/-- Claim C9: with no selected record, `cycle_status`, `delete_selected`,
`begin_edit_link` leave the state unchanged, and `open_selected_link`
opens nothing; all four are total no-ops. -/
theorem C9_no_selection_noop (s : App) (h : s.selected = none) :
    s.cycle_current_status = s ∧ s.delete_current_job = s ∧
    s.start_edit_link = s ∧ s.open_current_link = none := by
  refine ⟨?_, ?_, ?_, ?_⟩
  · simp only [App.cycle_current_status, h]
  · simp only [App.delete_current_job, h]
  · simp only [App.start_edit_link, h]
  · simp only [App.open_current_link, h]

/-- Witness for C9 at the empty initial state. -/
theorem C9_no_selection_noop_witness :
    (App.new []).cycle_current_status = App.new [] ∧
    (App.new []).delete_current_job = App.new [] ∧
    (App.new []).start_edit_link = App.new [] ∧
    (App.new []).open_current_link = none :=
  C9_no_selection_noop (App.new []) rfl

/-- Claim C10: for every total width, the layout function returns either
all-zero column widths or four widths that are each at least 3 (the
truncation floor). -/
theorem C10_column_floor (w : Nat) :
    column_widths w = (0, 0, 0, 0) ∨
    (3 ≤ (column_widths w).1 ∧ 3 ≤ (column_widths w).2.1 ∧
     3 ≤ (column_widths w).2.2.1 ∧ 3 ≤ (column_widths w).2.2.2) := by
  by_cases h : w - 13 = 0
  · left
    simp only [column_widths]
    rw [if_pos h]
  · right
    simp only [column_widths]
    rw [if_neg h]
    split_ifs with h1 h2 h3 <;> dsimp only <;> omega

end CareerCli
